import Mathlib

/-!
Verification of the URL parser (`saba_core/src/url.rs`) and the HTTP client
(`net/wasabi/src/http.rs`) of the repository.  Strings are embedded as
`List Char`; Rust's byte-index operations on the characters we split at
(`'/'`, `'?'`, `':'`, all ASCII) coincide with character-index operations,
so the `List Char` model is faithful.
-/

/-- Rust `str::starts_with` on character lists: `startsWith s p` holds when
`p` is a prefix of `s`. -/
def startsWith : List Char → List Char → Bool
  | _, [] => true
  | [], _ :: _ => false
  | c :: s, q :: qs => c == q && startsWith s qs

theorem startsWith_length {s p : List Char} (h : startsWith s p = true) :
    p.length ≤ s.length := by
  induction p generalizing s with
  | nil => simp
  | cons q qs ih =>
    cases s with
    | nil => simp [startsWith] at h
    | cons c cs =>
      simp only [startsWith, Bool.and_eq_true] at h
      simpa [List.length_cons, Nat.succ_le_succ_iff] using ih h.2

/-- Fuel-indexed helper for `trimStartMatches`; each successful strip
removes at least one character, so fuel `s.length` is always enough. -/
def trimStartAux (p : List Char) : Nat → List Char → List Char
  | 0, s => s
  | n + 1, s =>
    if !p.isEmpty && startsWith s p then trimStartAux p n (s.drop p.length)
    else s

/-- Rust `str::trim_start_matches`: repeatedly removes the pattern `p` from
the front of `s` while it is a prefix. -/
def trimStartMatches (p s : List Char) : List Char :=
  trimStartAux p s.length s

theorem trimStartAux_fuel (p : List Char) :
    ∀ n m s, s.length ≤ n → s.length ≤ m →
      trimStartAux p n s = trimStartAux p m s := by
  intro n
  induction n with
  | zero =>
    intro m s hn _
    have hs : s = [] := List.eq_nil_of_length_eq_zero (Nat.le_zero.mp hn)
    subst hs
    cases m with
    | zero => rfl
    | succ m =>
      simp only [trimStartAux]
      cases p with
      | nil => simp
      | cons q qs => simp [startsWith]
  | succ n ih =>
    intro m s hn hm
    cases m with
    | zero =>
      have hs : s = [] := List.eq_nil_of_length_eq_zero (Nat.le_zero.mp hm)
      subst hs
      simp only [trimStartAux]
      cases p with
      | nil => simp
      | cons q qs => simp [startsWith]
    | succ m =>
      simp only [trimStartAux]
      by_cases hc : (!p.isEmpty && startsWith s p) = true
      · rw [if_pos hc, if_pos hc]
        have hp : 0 < p.length := by
          cases p with
          | nil => simp at hc
          | cons q qs => simp
        have hsw : startsWith s p = true := by
          have hc2 := hc; simp only [Bool.and_eq_true] at hc2; exact hc2.2
        have hsp : p.length ≤ s.length := startsWith_length hsw
        have hlen : (s.drop p.length).length ≤ n := by
          simp only [List.length_drop]; omega
        have hlen2 : (s.drop p.length).length ≤ m := by
          simp only [List.length_drop]; omega
        exact ih m (s.drop p.length) hlen hlen2
      · rw [if_neg hc, if_neg hc]

/-- The recursion equation of `trimStartMatches`. -/
theorem trimStartMatches_eq (p s : List Char) :
    trimStartMatches p s =
      if !p.isEmpty && startsWith s p then
        trimStartMatches p (s.drop p.length)
      else s := by
  by_cases hc : (!p.isEmpty && startsWith s p) = true
  · rw [if_pos hc]
    unfold trimStartMatches
    have hp : 0 < p.length := by
      cases p with
      | nil => simp at hc
      | cons q qs => simp
    have hsw : startsWith s p = true := by
      have hc2 := hc; simp only [Bool.and_eq_true] at hc2; exact hc2.2
    have hsp : p.length ≤ s.length := startsWith_length hsw
    cases hl : s.length with
    | zero =>
      exfalso
      have hs : s = [] := List.eq_nil_of_length_eq_zero hl
      subst hs
      simp only [List.length_nil] at hsp
      omega
    | succ n =>
      simp only [trimStartAux, if_pos hc]
      apply trimStartAux_fuel
      · simp only [List.length_drop]; omega
      · exact Nat.le_refl _
  · rw [if_neg hc]
    unfold trimStartMatches
    cases hl : s.length with
    | zero => rfl
    | succ n => simp only [trimStartAux, if_neg hc]

/-- The characters of the literal scheme prefix `http://`. -/
def schemeList : List Char := "http://".data

/-- `Url::is_http`. -/
def is_http (url : List Char) : Bool := startsWith url schemeList

/-- The first component of splitting on `'/'` or `'?'` (Rust
`split(|c| c == '/' || c == '?')`, component `[0]`): the longest prefix
free of both separators. -/
def hostSegment (s : List Char) : List Char :=
  s.takeWhile (fun c => !(c == '/' || c == '?'))

/-- `Url::extract_host`: host-with-port segment of the trimmed URL,
truncated at the first `':'` when one occurs (Rust `find(':')`). -/
def extract_host (url : List Char) : List Char :=
  let host_with_port := hostSegment (trimStartMatches schemeList url)
  if host_with_port.contains ':' then
    host_with_port.takeWhile (fun c => c != ':')
  else host_with_port

/-- `Url::extract_port`: the characters after the first `':'` of the
host-with-port segment, or `"80"` when it has no `':'`. -/
def extract_port (url : List Char) : List Char :=
  let host_with_port := hostSegment (trimStartMatches schemeList url)
  if host_with_port.contains ':' then
    (host_with_port.dropWhile (fun c => c != ':')).drop 1
  else "80".data

/-- `Url::extract_path`: Rust `splitn(2, '/')` on the trimmed URL yields a
second component exactly when a `'/'` occurs; that component is then cut at
the first `'?'` by `splitn(2, '?')`, component `[0]`. -/
def extract_path (url : List Char) : List Char :=
  let s := trimStartMatches schemeList url
  if s.contains '/' then
    ((s.dropWhile (fun c => c != '/')).drop 1).takeWhile (fun c => c != '?')
  else []

/-- `Url::extract_searchpart`: the characters after the first `'?'` of the
whole raw URL (Rust `find('?')`), or empty when there is none. -/
def extract_searchpart (url : List Char) : List Char :=
  if url.contains '?' then (url.dropWhile (fun c => c != '?')).drop 1
  else []

/-- The `Url` record of `url.rs`. -/
structure Url where
  url : List Char
  host : List Char
  port : List Char
  path : List Char
  searchpart : List Char
deriving DecidableEq, Repr

/-- `Url::new`: stores the raw string, all derived fields empty. -/
def Url.new (url : List Char) : Url :=
  { url := url, host := [], port := [], path := [], searchpart := [] }

/-- The error message returned for a non-`http://` URL. -/
def errUnsupported : List Char := "Only HTTP scheme is supported.".data

/-- `Url::parse`: checks the scheme, then populates the four derived fields
from the raw string and returns the populated record. -/
def Url.parse (u : Url) : Except (List Char) Url :=
  if is_http u.url then
    .ok { u with
          host := extract_host u.url
          port := extract_port u.url
          path := extract_path u.url
          searchpart := extract_searchpart u.url }
  else .error errUnsupported

example :
    (Url.new "http://example.com".data).parse =
      .ok { url := "http://example.com".data, host := "example.com".data,
            port := "80".data, path := [], searchpart := [] } := by rfl

example :
    (Url.new "http://example.com:8080/index.html?a=123&b=456".data).parse =
      .ok { url := "http://example.com:8080/index.html?a=123&b=456".data,
            host := "example.com".data, port := "8080".data,
            path := "index.html".data, searchpart := "a=123&b=456".data } := by rfl

example :
    (Url.new "https://example.com".data).parse = .error errUnsupported := by rfl

/-! ### List helper lemmas -/

theorem contains_iff_mem {l : List Char} {c : Char} :
    l.contains c = true ↔ c ∈ l := List.elem_iff

theorem contains_eq_false_iff {l : List Char} {c : Char} :
    l.contains c = false ↔ c ∉ l := by
  rw [← Bool.not_eq_true, not_iff_not]
  exact contains_iff_mem

theorem contains_append_or (l₁ l₂ : List Char) (c : Char) :
    (l₁ ++ l₂).contains c = (l₁.contains c || l₂.contains c) := by
  by_cases h : c ∈ l₁ ++ l₂
  · rcases List.mem_append.mp h with h1 | h2
    · rw [contains_iff_mem.mpr h, contains_iff_mem.mpr h1, Bool.true_or]
    · rw [contains_iff_mem.mpr h, contains_iff_mem.mpr h2, Bool.or_true]
  · rw [contains_eq_false_iff.mpr h,
      contains_eq_false_iff.mpr (fun h1 => h (List.mem_append.mpr (Or.inl h1))),
      contains_eq_false_iff.mpr (fun h2 => h (List.mem_append.mpr (Or.inr h2)))]
    rfl

theorem mem_of_mem_takeWhile {p : Char → Bool} {l : List Char} {a : Char}
    (h : a ∈ l.takeWhile p) : a ∈ l :=
  List.takeWhile_subset p h

theorem takeWhile_append_of_all {p : Char → Bool} {l₁ : List Char} (l₂ : List Char)
    (h : ∀ a ∈ l₁, p a = true) :
    (l₁ ++ l₂).takeWhile p = l₁ ++ l₂.takeWhile p := by
  induction l₁ with
  | nil => simp
  | cons x xs ih =>
    have hx : p x = true := h x (List.mem_cons_self x xs)
    simp only [List.cons_append, List.takeWhile, hx, List.append_eq]
    rw [ih (fun a ha => h a (List.mem_cons_of_mem x ha))]

theorem dropWhile_append_of_all {p : Char → Bool} {l₁ : List Char} (l₂ : List Char)
    (h : ∀ a ∈ l₁, p a = true) :
    (l₁ ++ l₂).dropWhile p = l₂.dropWhile p := by
  induction l₁ with
  | nil => simp
  | cons x xs ih =>
    have hx : p x = true := h x (List.mem_cons_self x xs)
    simp only [List.cons_append, List.dropWhile, hx, List.append_eq]
    exact ih (fun a ha => h a (List.mem_cons_of_mem x ha))

theorem dropWhile_eq_drop_length (p : Char → Bool) (l : List Char) :
    l.dropWhile p = l.drop (l.takeWhile p).length := by
  induction l with
  | nil => rfl
  | cons x xs ih =>
    simp only [List.takeWhile, List.dropWhile]
    cases hx : p x with
    | true => simpa using ih
    | false => rfl

/-- Splitting a list at the first occurrence of a character `c` it contains:
the part before (which is `takeWhile (· != c)` and is `c`-free) and the part
after (`dropWhile (· != c)` minus the `c` itself). -/
theorem split_at_first_char {l : List Char} {c : Char} (h : c ∈ l) :
    ∃ a b, l = a ++ c :: b ∧ c ∉ a ∧
      l.takeWhile (fun x => x != c) = a ∧
      l.dropWhile (fun x => x != c) = c :: b := by
  induction l with
  | nil => simp at h
  | cons x xs ih =>
    by_cases hx : x = c
    · subst hx
      refine ⟨[], xs, by simp, by simp, ?_, ?_⟩
      · simp [List.takeWhile]
      · simp [List.dropWhile]
    · have hmem : c ∈ xs := by
        rcases List.mem_cons.mp h with h1 | h1
        · exact absurd h1.symm hx
        · exact h1
      obtain ⟨a, b, hl, hna, hta, hda⟩ := ih hmem
      have hxc : (x != c) = true := bne_iff_ne.mpr hx
      refine ⟨x :: a, b, by simp [hl], ?_, ?_, ?_⟩
      · intro hc
        rcases List.mem_cons.mp hc with h1 | h1
        · exact hx h1.symm
        · exact hna h1
      · simp only [List.takeWhile, hxc, hta]
      · simp only [List.dropWhile, hxc, hda]

/-- When a list is free of a character, `takeWhile (· != c)` is the whole
list. -/
theorem takeWhile_ne_of_not_mem {l : List Char} {c : Char} (h : c ∉ l) :
    l.takeWhile (fun x => x != c) = l := by
  induction l with
  | nil => rfl
  | cons x xs ih =>
    have hx : (x != c) = true := bne_iff_ne.mpr (fun he => h (he ▸ List.mem_cons_self x xs))
    simp only [List.takeWhile, hx]
    rw [ih (fun hm => h (List.mem_cons_of_mem x hm))]

/-- The first element surviving `dropWhile` falsifies the predicate. -/
theorem dropWhile_head_false {p : Char → Bool} {l t : List Char} {c : Char}
    (h : l.dropWhile p = c :: t) : p c = false := by
  induction l with
  | nil => simp [List.dropWhile] at h
  | cons x xs ih =>
    simp only [List.dropWhile] at h
    cases hx : p x with
    | true => rw [hx] at h; exact ih h
    | false =>
      rw [hx] at h
      cases h
      exact hx

/-! ### Structural facts about the parser -/

theorem startsWith_eq_append {s p : List Char} (h : startsWith s p = true) :
    s = p ++ s.drop p.length := by
  induction p generalizing s with
  | nil => simp
  | cons q qs ih =>
    cases s with
    | nil => simp [startsWith] at h
    | cons c cs =>
      simp only [startsWith, Bool.and_eq_true, beq_iff_eq] at h
      obtain ⟨rfl, h2⟩ := h
      simpa using ih h2

/-- When the pattern matches exactly once at the front, `trim_start_matches`
removes exactly one copy. -/
theorem trimStartMatches_once {p s : List Char} (hp : p ≠ [])
    (h1 : startsWith s p = true)
    (h2 : startsWith (s.drop p.length) p = false) :
    trimStartMatches p s = s.drop p.length := by
  rw [trimStartMatches_eq]
  have hpe : p.isEmpty = false := by cases p with
    | nil => exact absurd rfl hp
    | cons q qs => rfl
  rw [hpe, h1]
  simp only [Bool.not_false, Bool.and_true, if_true]
  rw [trimStartMatches_eq, h2]
  simp

theorem scheme_ne_nil : schemeList ≠ [] := by decide

theorem scheme_no_query : '?' ∉ schemeList := by decide

/-- Every character of the host-with-port segment is neither `'/'` nor
`'?'`. -/
theorem mem_hostSegment {s : List Char} {a : Char} (h : a ∈ hostSegment s) :
    a ≠ '/' ∧ a ≠ '?' := by
  have hp := List.mem_takeWhile_imp h
  simp only [Bool.not_eq_true', Bool.or_eq_false_iff, beq_eq_false_iff_ne] at hp
  exact hp

theorem hostSegment_no_slash (s : List Char) : '/' ∉ hostSegment s :=
  fun h => (mem_hostSegment h).1 rfl

theorem hostSegment_no_query (s : List Char) : '?' ∉ hostSegment s :=
  fun h => (mem_hostSegment h).2 rfl

/-- The trimmed URL splits as host-with-port segment followed by the
remainder. -/
theorem hostSegment_split (s : List Char) :
    hostSegment s ++ s.drop (hostSegment s).length = s := by
  have h := dropWhile_eq_drop_length (fun c => !(c == '/' || c == '?')) s
  unfold hostSegment
  rw [← h]
  exact List.takeWhile_append_dropWhile _ s

/-- Concatenating the extracted host with `':'` and the extracted port (when
the segment has a colon) recovers the host-with-port segment. -/
theorem host_colon_port (url : List Char) :
    extract_host url ++
      (if (hostSegment (trimStartMatches schemeList url)).contains ':' then
        ':' :: extract_port url
      else []) = hostSegment (trimStartMatches schemeList url) := by
  unfold extract_host extract_port
  by_cases hc : (hostSegment (trimStartMatches schemeList url)).contains ':' = true
  · obtain ⟨a, b, hl, _, hta, hda⟩ := split_at_first_char (contains_iff_mem.mp hc)
    rw [hc, if_pos hc, if_pos hc, hta, hda]
    simpa using hl.symm
  · rw [Bool.not_eq_true] at hc
    have hn : ':' ∉ hostSegment (trimStartMatches schemeList url) :=
      contains_eq_false_iff.mp hc
    rw [if_neg (by simpa using hn), if_neg (by simpa using hn), List.append_nil]

/-- A `Url` whose raw string passes the scheme check parses to the record
with all four fields extracted from that raw string. -/
theorem parse_eq_of_is_http (u : Url) (h : is_http u.url = true) :
    u.parse = .ok { url := u.url, host := extract_host u.url,
                    port := extract_port u.url, path := extract_path u.url,
                    searchpart := extract_searchpart u.url } := by
  unfold Url.parse
  rw [h]
  rfl

/-- Characterization of successful parses: the scheme check passes and every
field is the corresponding extraction of the raw string. -/
theorem parse_ok_iff {raw : List Char} {u : Url} :
    (Url.new raw).parse = .ok u ↔
      (is_http raw = true ∧
        u = { url := raw, host := extract_host raw, port := extract_port raw,
              path := extract_path raw, searchpart := extract_searchpart raw }) := by
  unfold Url.parse Url.new
  by_cases h : is_http raw = true
  · simp only [h, if_true, true_and]
    constructor
    · intro he; cases he; rfl
    · intro he; rw [he]
  · rw [Bool.not_eq_true] at h
    simp [h]

/-! ### Spec-side definitions

The following definitions are written from the specification's wording (not
from the code); the claim theorems compare them with the extraction
functions embedded from the source. -/

/-- Spec wording: the raw string "with the scheme prefix `http://` stripped
(once)". -/
def stripOnce (raw : List Char) : List Char :=
  if startsWith raw schemeList then raw.drop schemeList.length else raw

/-- Spec wording for the host (claim C2): the once-stripped raw string "taken
up to the first occurrence of `'/'` or `'?'`, and further truncated at the
first `':'` if one is present in that segment". -/
def hostFromSpecOnce (raw : List Char) : List Char :=
  let seg := hostSegment (stripOnce raw)
  if seg.contains ':' then seg.takeWhile (fun c => c != ':') else seg

/-- Spec wording for the path (claim C3): "the substring after the first
`'/'` following the host segment, up to but excluding the first `'?'`", and
empty "when no `'/'` follows the host segment". -/
def pathFromSpec (raw : List Char) : List Char :=
  let s := trimStartMatches schemeList raw
  let afterHost := s.drop (hostSegment s).length
  if afterHost.contains '/' then
    ((afterHost.dropWhile (fun c => c != '/')).drop 1).takeWhile (fun c => c != '?')
  else []

/-- Spec wording for the port (claim C5): "the substring after the first
`':'` in the host segment when a `':'` is present there", i.e. the segment
with everything up to and including the first `':'` removed, "and the string
`80` when no `':'` is present". -/
def portFromSpec (raw : List Char) : List Char :=
  let seg := hostSegment (trimStartMatches schemeList raw)
  if seg.contains ':' then
    seg.drop ((seg.takeWhile (fun c => c != ':')).length + 1)
  else "80".data

/-- The combined interpretation of claim C1: scheme, then host, then `':'`
and port when the host segment has a colon, then `'/'` and path when a `'/'`
follows the host segment, then `'?'` and searchpart when the raw string has
a `'?'`.  `none` when `parse` rejects the raw string. -/
def reconstructAt (raw : List Char) : Option (List Char) :=
  match (Url.new raw).parse with
  | .ok u =>
    let s := trimStartMatches schemeList raw
    some (schemeList ++ u.host ++
      (if (hostSegment s).contains ':' then ':' :: u.port else []) ++
      (if s.contains '/' then '/' :: u.path else []) ++
      (if raw.contains '?' then '?' :: u.searchpart else []))
  | .error _ => none

/-! ### Claim theorems: the URL parser -/

/-- Claim C4: `parse` fails, with the unsupported-scheme error, exactly on
raw strings that do not start with the literal prefix `http://`; on every
raw string that does start with `http://` it succeeds atomically with all
four derived fields populated from the raw string (no malformed segment is
ever a failure condition).  On failure the returned value is the bare error,
so no derived field is populated. -/
theorem scheme_gate (raw : List Char) :
    (startsWith raw schemeList = false →
      (Url.new raw).parse = .error errUnsupported) ∧
    (startsWith raw schemeList = true →
      (Url.new raw).parse =
        .ok { url := raw, host := extract_host raw, port := extract_port raw,
              path := extract_path raw, searchpart := extract_searchpart raw }) := by
  constructor
  · intro h
    unfold Url.parse Url.new is_http
    rw [h]
    rfl
  · intro h
    exact parse_ok_iff.mpr ⟨h, rfl⟩

/-- Witness for C4: a wrong-scheme raw string fails with the unsupported
scheme error, and an `http://` raw string parses to the fully populated
record. -/
theorem scheme_gate_witness :
    (Url.new "https://example.com".data).parse = .error errUnsupported ∧
    (Url.new "http://example.com".data).parse =
      .ok { url := "http://example.com".data,
            host := extract_host "http://example.com".data,
            port := extract_port "http://example.com".data,
            path := extract_path "http://example.com".data,
            searchpart := extract_searchpart "http://example.com".data } :=
  ⟨(scheme_gate "https://example.com".data).1 (by decide),
   (scheme_gate "http://example.com".data).2 (by decide)⟩

/-- Claim C6: parsing is idempotent — if `parse` on a fresh `Url` yields the
populated record `u`, then calling `parse` on `u` yields exactly `u` again,
because every derived field is a pure function of the unchanged raw
string. -/
theorem parse_idempotent (raw : List Char) (u : Url)
    (h : (Url.new raw).parse = .ok u) : u.parse = .ok u := by
  obtain ⟨h1, rfl⟩ := parse_ok_iff.mp h
  exact parse_eq_of_is_http _ h1

/-- Witness for C6 at `http://example.com:8080/index.html?a=123&b=456`. -/
theorem parse_idempotent_witness :
    ({ url := "http://example.com:8080/index.html?a=123&b=456".data,
       host := "example.com".data, port := "8080".data,
       path := "index.html".data, searchpart := "a=123&b=456".data } : Url).parse =
      .ok { url := "http://example.com:8080/index.html?a=123&b=456".data,
            host := "example.com".data, port := "8080".data,
            path := "index.html".data, searchpart := "a=123&b=456".data } :=
  parse_idempotent "http://example.com:8080/index.html?a=123&b=456".data _ (by rfl)

/-- The extraction of the path from the source agrees, on every raw string,
with the spec's description of the path (cutting after the first `'/'` that
follows the host segment). -/
theorem extract_path_eq_spec (raw : List Char) :
    extract_path raw = pathFromSpec raw := by
  simp only [extract_path, pathFromSpec]
  set s := trimStartMatches schemeList raw with hs
  have hsplit : hostSegment s ++ s.drop (hostSegment s).length = s :=
    hostSegment_split s
  have hall : ∀ a ∈ hostSegment s, (a != '/') = true :=
    fun a ha => bne_iff_ne.mpr (mem_hostSegment ha).1
  have hcontains : s.contains '/' = (s.drop (hostSegment s).length).contains '/' := by
    conv_lhs => rw [← hsplit]
    rw [contains_append_or,
      contains_eq_false_iff.mpr (hostSegment_no_slash s), Bool.false_or]
  have hdrop : s.dropWhile (fun c => c != '/') =
      (s.drop (hostSegment s).length).dropWhile (fun c => c != '/') := by
    conv_lhs => rw [← hsplit]
    exact dropWhile_append_of_all _ hall
  rw [hcontains, hdrop]

/-- Claim C3: on every successful parse of a raw string starting with
`http://`, the path field is the substring after the first `'/'` following
the host segment, up to but excluding the first `'?'` (segments kept
verbatim as one string), and is empty when no `'/'` follows the host
segment. -/
theorem path_matches_spec (raw : List Char) (u : Url)
    (h : (Url.new raw).parse = .ok u) : u.path = pathFromSpec raw := by
  obtain ⟨_, rfl⟩ := parse_ok_iff.mp h
  exact extract_path_eq_spec raw

/-- Witness for C3 at the spec's example
`http://example.com/a/b/c.html?a=1&b=2`, whose path is `a/b/c.html`. -/
theorem path_matches_spec_witness :
    ({ url := "http://example.com/a/b/c.html?a=1&b=2".data,
       host := "example.com".data, port := "80".data,
       path := "a/b/c.html".data, searchpart := "a=1&b=2".data } : Url).path =
      pathFromSpec "http://example.com/a/b/c.html?a=1&b=2".data :=
  path_matches_spec "http://example.com/a/b/c.html?a=1&b=2".data _ (by rfl)

/-- The extraction of the port from the source agrees, on every raw string,
with the spec's description of the port. -/
theorem extract_port_eq_spec (raw : List Char) :
    extract_port raw = portFromSpec raw := by
  simp only [extract_port, portFromSpec]
  by_cases hc : (hostSegment (trimStartMatches schemeList raw)).contains ':' = true
  · rw [if_pos hc, if_pos hc, dropWhile_eq_drop_length, List.drop_drop]
  · rw [Bool.not_eq_true] at hc
    rw [hc]
    rfl

/-- Claim C5: on every successful parse of a raw string starting with
`http://`, the port field is the substring after the first `':'` of the
host segment when one is present there, and the string `80` otherwise. -/
theorem port_matches_spec (raw : List Char) (u : Url)
    (h : (Url.new raw).parse = .ok u) : u.port = portFromSpec raw := by
  obtain ⟨_, rfl⟩ := parse_ok_iff.mp h
  exact extract_port_eq_spec raw

/-- Witness for C5 at the spec's example `http://example.com:8080`, whose
port is `8080`. -/
theorem port_matches_spec_witness :
    ({ url := "http://example.com:8080".data, host := "example.com".data,
       port := "8080".data, path := [], searchpart := [] } : Url).port =
      portFromSpec "http://example.com:8080".data :=
  port_matches_spec "http://example.com:8080".data _ (by rfl)

/-- Counterexample to claim C2 as stated: on `http://http://a` the code
strips the scheme prefix repeatedly (Rust `trim_start_matches`), producing
host `a`, while stripping it once, as the claim says, would produce host
`http`. -/
theorem host_strip_once_counterexample :
    ((Url.new "http://http://a".data).parse.toOption.map Url.host) = some "a".data ∧
    hostFromSpecOnce "http://http://a".data = "http".data ∧
    ("a".data : List Char) ≠ "http".data :=
  ⟨by rfl, by rfl, by decide⟩

/-- Claim C2 (amended): for every raw string that starts with `http://` and
whose remainder after stripping that prefix once does not itself start with
`http://`, the host field of a successful parse is the once-stripped
remainder up to the first `'/'` or `'?'`, further truncated at the first
`':'` if one is present in that segment.  (The amendment adds the
no-repeated-prefix hypothesis: the code strips the prefix repeatedly.) -/
theorem host_strip_once_amended (raw : List Char) (u : Url)
    (h1 : startsWith raw schemeList = true)
    (h2 : startsWith (raw.drop schemeList.length) schemeList = false)
    (h : (Url.new raw).parse = .ok u) :
    u.host = hostFromSpecOnce raw := by
  obtain ⟨_, rfl⟩ := parse_ok_iff.mp h
  show extract_host raw = hostFromSpecOnce raw
  simp only [extract_host, hostFromSpecOnce, stripOnce]
  rw [trimStartMatches_once scheme_ne_nil h1 h2, if_pos h1]

/-- Witness for amended C2 at `http://example.com:8080/x`. -/
theorem host_strip_once_amended_witness :
    ({ url := "http://example.com:8080/x".data, host := "example.com".data,
       port := "8080".data, path := "x".data, searchpart := [] } : Url).host =
      hostFromSpecOnce "http://example.com:8080/x".data :=
  host_strip_once_amended "http://example.com:8080/x".data _
    (by decide) (by decide) (by rfl)

/-- Claim C10: the field-shape invariant of every successful parse — the
host contains no `'/'`, `'?'` or `':'`; the path contains no `'?'`; and the
port is either the default `80` or exactly the characters after the first
`':'` of the host segment (so it is empty only when the host segment ends
in a trailing `':'`). -/
theorem parse_field_shape (raw : List Char) (u : Url)
    (h : (Url.new raw).parse = .ok u) :
    u.host.contains '/' = false ∧ u.host.contains '?' = false ∧
    u.host.contains ':' = false ∧ u.path.contains '?' = false ∧
    (u.port = "80".data ∨
      ((hostSegment (trimStartMatches schemeList raw)).contains ':' = true ∧
        u.port = (hostSegment (trimStartMatches schemeList raw)).drop
          (((hostSegment (trimStartMatches schemeList raw)).takeWhile
            (fun c => c != ':')).length + 1))) := by
  obtain ⟨_, rfl⟩ := parse_ok_iff.mp h
  refine ⟨?_, ?_, ?_, ?_, ?_⟩
  · show (extract_host raw).contains '/' = false
    apply contains_eq_false_iff.mpr
    intro hm
    simp only [extract_host] at hm
    by_cases hc : (hostSegment (trimStartMatches schemeList raw)).contains ':' = true
    · rw [if_pos hc] at hm
      exact (mem_hostSegment (mem_of_mem_takeWhile hm)).1 rfl
    · rw [Bool.not_eq_true] at hc
      rw [if_neg (by rw [hc]; exact Bool.false_ne_true)] at hm
      exact (mem_hostSegment hm).1 rfl
  · show (extract_host raw).contains '?' = false
    apply contains_eq_false_iff.mpr
    intro hm
    simp only [extract_host] at hm
    by_cases hc : (hostSegment (trimStartMatches schemeList raw)).contains ':' = true
    · rw [if_pos hc] at hm
      exact (mem_hostSegment (mem_of_mem_takeWhile hm)).2 rfl
    · rw [Bool.not_eq_true] at hc
      rw [if_neg (by rw [hc]; exact Bool.false_ne_true)] at hm
      exact (mem_hostSegment hm).2 rfl
  · show (extract_host raw).contains ':' = false
    apply contains_eq_false_iff.mpr
    intro hm
    simp only [extract_host] at hm
    by_cases hc : (hostSegment (trimStartMatches schemeList raw)).contains ':' = true
    · rw [if_pos hc] at hm
      have := List.mem_takeWhile_imp hm
      simp at this
    · rw [Bool.not_eq_true] at hc
      rw [if_neg (by rw [hc]; exact Bool.false_ne_true)] at hm
      exact absurd (contains_iff_mem.mpr hm) (by rw [hc]; exact Bool.false_ne_true)
  · show (extract_path raw).contains '?' = false
    apply contains_eq_false_iff.mpr
    intro hm
    simp only [extract_path] at hm
    by_cases hc : (trimStartMatches schemeList raw).contains '/' = true
    · rw [if_pos hc] at hm
      have := List.mem_takeWhile_imp hm
      simp at this
    · rw [Bool.not_eq_true] at hc
      rw [if_neg (by rw [hc]; exact Bool.false_ne_true)] at hm
      simp at hm
  · show extract_port raw = "80".data ∨ _
    rw [extract_port_eq_spec raw]
    simp only [portFromSpec]
    by_cases hc : (hostSegment (trimStartMatches schemeList raw)).contains ':' = true
    · exact Or.inr ⟨hc, by rw [if_pos hc]⟩
    · rw [Bool.not_eq_true] at hc
      exact Or.inl (by rw [if_neg (by rw [hc]; exact Bool.false_ne_true)])

/-- Witness for C10 at `http://example.com:8080/index.html?a=123&b=456`. -/
theorem parse_field_shape_witness :
    (("example.com".data : List Char).contains '/' = false ∧
      ("example.com".data : List Char).contains '?' = false ∧
      ("example.com".data : List Char).contains ':' = false ∧
      ("index.html".data : List Char).contains '?' = false ∧
      (("8080".data : List Char) = "80".data ∨
        ((hostSegment (trimStartMatches schemeList
            "http://example.com:8080/index.html?a=123&b=456".data)).contains ':' = true ∧
          ("8080".data : List Char) =
            (hostSegment (trimStartMatches schemeList
              "http://example.com:8080/index.html?a=123&b=456".data)).drop
              (((hostSegment (trimStartMatches schemeList
                "http://example.com:8080/index.html?a=123&b=456".data)).takeWhile
                (fun c => c != ':')).length + 1)))) :=
  parse_field_shape "http://example.com:8080/index.html?a=123&b=456".data
    { url := "http://example.com:8080/index.html?a=123&b=456".data,
      host := "example.com".data, port := "8080".data,
      path := "index.html".data, searchpart := "a=123&b=456".data } (by rfl)

/-- A character absent from a list is `!=` to every member. -/
theorem all_bne_of_not_mem {l : List Char} {c : Char} (h : c ∉ l) :
    ∀ a ∈ l, (a != c) = true :=
  fun _ ha => bne_iff_ne.mpr (fun e => h (e ▸ ha))

/-- `dropWhile (· != c)` stops immediately on a list headed by `c`. -/
theorem dropWhile_ne_cons_self (c : Char) (b : List Char) :
    (c :: b).dropWhile (fun x => x != c) = c :: b := by
  simp [List.dropWhile]

/-- The extracted searchpart of a raw string whose first `'?'` is the one
displayed: everything after it. -/
theorem extract_searchpart_append {pre : List Char} (b : List Char)
    (h : '?' ∉ pre) : extract_searchpart (pre ++ '?' :: b) = b := by
  unfold extract_searchpart
  have hc : (pre ++ '?' :: b).contains '?' = true :=
    contains_iff_mem.mpr (List.mem_append.mpr (Or.inr (List.mem_cons_self _ _)))
  rw [if_pos hc, dropWhile_append_of_all _ (all_bne_of_not_mem h),
    dropWhile_ne_cons_self, List.drop_one, List.tail_cons]

/-- Counterexample to claim C1 as stated: on `http://e?a/b` the code derives
path `b` (from the `'/'` inside the query) and searchpart `a/b`, so the
combined interpretation rebuilds `http://e/b?a/b`, which is not the raw
string — and the character `b` of the raw string is claimed by both the
path and the searchpart. -/
theorem reconstruct_counterexample :
    reconstructAt "http://e?a/b".data = some "http://e/b?a/b".data ∧
    ("http://e/b?a/b".data : List Char) ≠ "http://e?a/b".data := by
  refine ⟨by rfl, by decide⟩

/-- Claim C1 (amended): for every raw string accepted by `parse` such that
(a) the remainder after `http://` does not itself start with `http://`, and
(b) no `'?'` occurs before the first `'/'` of the remainder (when the
remainder has a `'/'` at all), concatenating `http://`, the host, `':'` and
the port when the host segment has a colon, `'/'` and the path when a `'/'`
follows the host segment, and `'?'` and the searchpart when a `'?'` is
present, reproduces the raw string (hence path and searchpart claim
disjoint parts of it).  The amendment adds hypotheses (a) and (b), which
the counterexamples `http://http://a` and `http://e?a/b` force. -/
theorem not_eq_true_of_eq_false {b : Bool} (h : b = false) : ¬ b = true :=
  fun h2 => Bool.false_ne_true (h ▸ h2)

/-- `host_colon_port`, reassociated for use inside a longer
concatenation. -/
theorem host_colon_port_W (url W : List Char) :
    extract_host url ++
      ((if (hostSegment (trimStartMatches schemeList url)).contains ':' then
        ':' :: extract_port url else []) ++ W) =
      hostSegment (trimStartMatches schemeList url) ++ W := by
  rw [← List.append_assoc, host_colon_port]

theorem reconstruct_amended (raw : List Char)
    (h1 : startsWith raw schemeList = true)
    (h2 : startsWith (raw.drop schemeList.length) schemeList = false)
    (h3 : (trimStartMatches schemeList raw).contains '/' = true →
      ((trimStartMatches schemeList raw).takeWhile (fun c => c != '/')).contains '?'
        = false) :
    reconstructAt raw = some raw := by
  have hp : (Url.new raw).parse = .ok
      { url := raw, host := extract_host raw, port := extract_port raw,
        path := extract_path raw, searchpart := extract_searchpart raw } :=
    parse_ok_iff.mpr ⟨h1, rfl⟩
  unfold reconstructAt
  rw [hp]
  dsimp only
  refine congrArg some ?_
  set s := trimStartMatches schemeList raw with hs
  set seg := hostSegment s with hseg
  have htrim : s = raw.drop schemeList.length :=
    trimStartMatches_once scheme_ne_nil h1 h2
  have hraw : raw = schemeList ++ s := by
    rw [htrim]
    exact startsWith_eq_append h1
  set t := s.dropWhile (fun c => !(c == '/' || c == '?')) with htdef
  have hsplit : seg ++ t = s := List.takeWhile_append_dropWhile _ s
  have hsegSlash : ∀ a ∈ seg, (a != '/') = true :=
    fun a ha => bne_iff_ne.mpr (mem_hostSegment ha).1
  have hsegQuery : ∀ a ∈ seg, (a != '?') = true :=
    fun a ha => bne_iff_ne.mpr (mem_hostSegment ha).2
  have hhp0 : extract_host raw ++
      (if seg.contains ':' then ':' :: extract_port raw else []) = seg := by
    rw [hseg, hs]
    exact host_colon_port raw
  have hhpW : ∀ W, extract_host raw ++
      ((if seg.contains ':' then ':' :: extract_port raw else []) ++ W) =
        seg ++ W := by
    intro W
    rw [hseg, hs]
    exact host_colon_port_W raw W
  cases hT : t with
  | nil =>
    have hss : seg = s := by rw [← hsplit, hT, List.append_nil]
    have hns : s.contains '/' = false :=
      contains_eq_false_iff.mpr (hss ▸ hostSegment_no_slash s)
    have hnq : raw.contains '?' = false := by
      rw [hraw, contains_append_or,
        contains_eq_false_iff.mpr scheme_no_query,
        contains_eq_false_iff.mpr (hss ▸ hostSegment_no_query s)]
      rfl
    rw [if_neg (not_eq_true_of_eq_false hns),
      if_neg (not_eq_true_of_eq_false hnq),
      List.append_nil, List.append_nil, List.append_assoc, hhp0]
    conv_rhs => rw [hraw]
    rw [hss]
  | cons c t' =>
    have hpc : (!(c == '/' || c == '?')) = false := by
      have := dropWhile_head_false (p := fun x => !(x == '/' || x == '?'))
        (l := s) (t := t') (c := c) (by rw [← htdef, hT])
      exact this
    have hcor : c = '/' ∨ c = '?' := by
      have hx : (c == '/' || c == '?') = true := by
        cases hcc : (c == '/' || c == '?') with
        | true => rfl
        | false => rw [hcc] at hpc; simp at hpc
      simpa using hx
    have hsst : s = seg ++ c :: t' := by rw [← hsplit, hT]
    rcases hcor with rfl | rfl
    · -- a '/' follows the host segment
      have hcs : s.contains '/' = true := by
        apply contains_iff_mem.mpr
        rw [hsst]
        simp
      have hdw : s.dropWhile (fun x => x != '/') = '/' :: t' := by
        rw [hsst, dropWhile_append_of_all _ hsegSlash, dropWhile_ne_cons_self]
      have hpath : extract_path raw = t'.takeWhile (fun x => x != '?') := by
        simp only [extract_path]
        rw [← hs, if_pos hcs, hdw, List.drop_one, List.tail_cons]
      by_cases hq : '?' ∈ t'
      · obtain ⟨a, b, hab, hqa, hta, _⟩ := split_at_first_char hq
        have hsp : extract_searchpart raw = b := by
          have hshape : raw = (schemeList ++ seg ++ '/' :: a) ++ '?' :: b := by
            rw [hraw, hsst, hab]
            simp [List.append_assoc]
          rw [hshape]
          apply extract_searchpart_append
          intro hmem
          rcases List.mem_append.mp hmem with hm | hm
          · rcases List.mem_append.mp hm with hm2 | hm2
            · exact scheme_no_query hm2
            · exact hostSegment_no_query s (hseg ▸ hm2)
          · rcases List.mem_cons.mp hm with hm2 | hm2
            · exact absurd hm2 (by decide)
            · exact hqa hm2
        have hqr : raw.contains '?' = true := by
          apply contains_iff_mem.mpr
          rw [hraw, hsst, hab]
          simp
        rw [if_pos hcs, if_pos hqr, hpath, hta, hsp]
        conv_rhs => rw [hraw]
        rw [hsst, hab]
        simp only [List.append_assoc, List.cons_append]
        rw [hhpW]
      · have hpath2 : extract_path raw = t' := by
          rw [hpath, takeWhile_ne_of_not_mem hq]
        have hnq : raw.contains '?' = false := by
          apply contains_eq_false_iff.mpr
          intro hmem
          rw [hraw, hsst] at hmem
          rcases List.mem_append.mp hmem with hm | hm
          · exact scheme_no_query hm
          · rcases List.mem_append.mp hm with hm2 | hm2
            · exact hostSegment_no_query s (hseg ▸ hm2)
            · rcases List.mem_cons.mp hm2 with hm3 | hm3
              · exact absurd hm3 (by decide)
              · exact hq hm3
        rw [if_pos hcs, if_neg (not_eq_true_of_eq_false hnq), List.append_nil,
          hpath2]
        conv_rhs => rw [hraw]
        rw [hsst]
        simp only [List.append_assoc, List.cons_append]
        rw [hhpW]
    · -- a '?' ends the host segment before any '/'
      have hns : s.contains '/' = false := by
        by_contra hcon
        rw [Bool.not_eq_false] at hcon
        have h4 := h3 (hs ▸ hcon)
        have htw : s.takeWhile (fun x => x != '/') =
            seg ++ '?' :: t'.takeWhile (fun x => x != '/') := by
          rw [hsst, takeWhile_append_of_all _ hsegSlash]
          congr 1
        rw [htw] at h4
        rw [contains_eq_false_iff] at h4
        exact h4 (by simp)
      have hqr : raw.contains '?' = true := by
        apply contains_iff_mem.mpr
        rw [hraw, hsst]
        simp
      have hsp : extract_searchpart raw = t' := by
        have hshape : raw = (schemeList ++ seg) ++ '?' :: t' := by
          rw [hraw, hsst, List.append_assoc]
        rw [hshape]
        apply extract_searchpart_append
        intro hmem
        rcases List.mem_append.mp hmem with hm | hm
        · exact scheme_no_query hm
        · exact hostSegment_no_query s (hseg ▸ hm)
      rw [if_neg (not_eq_true_of_eq_false hns), if_pos hqr, List.append_nil, hsp]
      conv_rhs => rw [hraw]
      rw [hsst]
      simp only [List.append_assoc, List.cons_append]
      rw [hhpW]

/-- Witness for amended C1 at `http://example.com:8080/index.html?a=123&b=456`:
the reconstruction reproduces the raw string. -/
theorem reconstruct_amended_witness :
    reconstructAt "http://example.com:8080/index.html?a=123&b=456".data =
      some "http://example.com:8080/index.html?a=123&b=456".data :=
  reconstruct_amended "http://example.com:8080/index.html?a=123&b=456".data
    (by decide) (by decide) (by decide)

/-! ### The HTTP client (`net/wasabi/src/http.rs`)

The resolver, the TCP transport and the response parser are external
collaborators; they are embedded as data supplied to `HttpClient.get`
describing one execution's behaviour.  The embedding additionally records a
trace (which addresses were connected to, what was written, what text was
handed to the response constructor) so that the claims about interaction
with the collaborators can be stated. -/

/-- Network addresses returned by the resolver are opaque here. -/
abbrev Ip := Nat

/-- Bytes read from the transport. -/
abbrev Byte := Nat

/-- Modelled from the spec: `saba_core::error::Error` (not under `src/`) —
a tagged error with a network kind carrying a detail string (§7: `NetworkError(phase, detail)`). -/
inductive Error where
  | Network : List Char → Error
deriving DecidableEq, Repr

deriving instance DecidableEq for Except

/-- Modelled from the spec: the external `HttpResponse` collaborator is
"constructed from a full UTF-8 response text"; only that text matters
here. -/
structure HttpResponse where
  rawText : List Char
deriving DecidableEq, Repr

/-- One TCP stream's behaviour for a single `get` call: the outcome of the
single `write`, and the successive outcomes of the `read` calls (`.ok
chunk` with `chunk = []` models a zero-byte read, i.e. peer close). -/
structure TcpStream where
  writeResult : Except Unit Nat
  reads : List (Except Unit (List Byte))

/-- The collaborators' behaviour for one `get` call: the resolver outcome
(`lookup_host`), the TCP connect outcome, and the external
`HttpResponse::new` constructor. -/
structure World where
  lookupResult : Except (List Char) (List Ip)
  connectResult : Except Unit TcpStream
  httpResponseNew : List Char → Except Error HttpResponse

/-- The read loop of `get` (lines 58–75 of `http.rs`) applied to the finite
list of read outcomes the transport will produce: accumulate each chunk,
stop normally at the first zero-byte read, fail at the first read error.
`none` models the case where the transport never closes within the supplied
outcomes — the real loop would still be blocked in `read`. -/
def readLoop : List (Except Unit (List Byte)) → List Byte →
    Option (Except Unit (List Byte))
  | [], _ => none
  | .error _ :: _, _ => some (.error ())
  | .ok chunk :: rest, received =>
    if chunk.length == 0 then some (.ok received)
    else readLoop rest (received ++ chunk)

/-- Modelled from the spec: `core::str::from_utf8` (§4.2 step 6, "decode the
full accumulated byte buffer as UTF-8 text") — the standard UTF-8 validation
and decoding, rejecting overlong forms, surrogates and out-of-range code
points. -/
def utf8DecodeAux : Nat → List Byte → List Char → Except Unit (List Char)
  | _, [], acc => .ok acc.reverse
  | 0, _ :: _, _ => .error ()
  | fuel + 1, b :: rest, acc =>
    if b < 0x80 then utf8DecodeAux fuel rest (Char.ofNat b :: acc)
    else if b < 0xC2 then .error ()
    else if b < 0xE0 then
      match rest with
      | b1 :: r =>
        if 0x80 ≤ b1 && b1 < 0xC0 then
          utf8DecodeAux fuel r (Char.ofNat ((b - 0xC0) * 0x40 + (b1 - 0x80)) :: acc)
        else .error ()
      | [] => .error ()
    else if b < 0xF0 then
      match rest with
      | b1 :: b2 :: r =>
        if (if b == 0xE0 then 0xA0 ≤ b1 && b1 < 0xC0
            else if b == 0xED then 0x80 ≤ b1 && b1 < 0xA0
            else 0x80 ≤ b1 && b1 < 0xC0) && (0x80 ≤ b2 && b2 < 0xC0) then
          utf8DecodeAux fuel r
            (Char.ofNat ((b - 0xE0) * 0x1000 + (b1 - 0x80) * 0x40 + (b2 - 0x80))
              :: acc)
        else .error ()
      | _ => .error ()
    else if b < 0xF5 then
      match rest with
      | b1 :: b2 :: b3 :: r =>
        if (if b == 0xF0 then 0x90 ≤ b1 && b1 < 0xC0
            else if b == 0xF4 then 0x80 ≤ b1 && b1 < 0x90
            else 0x80 ≤ b1 && b1 < 0xC0) && (0x80 ≤ b2 && b2 < 0xC0)
            && (0x80 ≤ b3 && b3 < 0xC0) then
          utf8DecodeAux fuel r
            (Char.ofNat ((b - 0xF0) * 0x40000 + (b1 - 0x80) * 0x1000
              + (b2 - 0x80) * 0x40 + (b3 - 0x80)) :: acc)
        else .error ()
      | _ => .error ()
    else .error ()

/-- Each step consumes at least one byte, so fuel `bs.length` always
suffices and the artificial out-of-fuel case is never reached. -/
def utf8Decode (bs : List Byte) : Except Unit (List Char) :=
  utf8DecodeAux bs.length bs []

/-- The request built by `get` (lines 44–47 of `http.rs`): the Rust
`format!` call with `path` and `host` substituted verbatim. -/
def requestString (path host : List Char) : List Char :=
  "GET /".data ++ path ++ " HTTP/1.1\r\nHost: ".data ++ host ++
    "\r\nAccept: text/html\r\nConnection: close\r\n\r\n".data

/-- The observable outcome of one `get` call: the socket addresses a TCP
connect was attempted on, the byte strings written to the stream, the text
passed to `HttpResponse::new` (when reached), and the returned value
(`none` models a call that never returns because the read loop blocks). -/
structure GetTrace where
  connectAttempts : List (Ip × Nat)
  writesPerformed : List (List Char)
  passedText : Option (List Char)
  result : Option (Except Error HttpResponse)
deriving DecidableEq, Repr

/-- The decode-and-parse phase of `get` (lines 77–80 of `http.rs`): decode
the accumulated bytes as UTF-8 and hand the text to `HttpResponse::new`,
returning its result unchanged. -/
def getDecodePhase (w : World) (sa : Ip × Nat) (request : List Char)
    (received : List Byte) : GetTrace :=
  match utf8Decode received with
  | .error _ =>
    { connectAttempts := [sa], writesPerformed := [request],
      passedText := none,
      result := some (.error
        (.Network "Invalid received response: invalid utf-8".data)) }
  | .ok text =>
    { connectAttempts := [sa], writesPerformed := [request],
      passedText := some text,
      result := some (w.httpResponseNew text) }

/-- The receive phase of `get` (lines 58–75 of `http.rs`): run the read
loop, fail on a read error, block forever if the peer never closes. -/
def getReadPhase (w : World) (sa : Ip × Nat) (request : List Char)
    (stream : TcpStream) : GetTrace :=
  match readLoop stream.reads [] with
  | none =>
    { connectAttempts := [sa], writesPerformed := [request],
      passedText := none, result := none }
  | some (.error _) =>
    { connectAttempts := [sa], writesPerformed := [request],
      passedText := none,
      result := some (.error
        (.Network "Failed to receive a request from TCP stream".data)) }
  | some (.ok received) => getDecodePhase w sa request received

/-- The send phase of `get` (lines 44–56 of `http.rs`): build the request,
write it once, fail on a write error. -/
def getWritePhase (w : World) (sa : Ip × Nat) (host path : List Char)
    (stream : TcpStream) : GetTrace :=
  let request := requestString path host
  match stream.writeResult with
  | .error _ =>
    { connectAttempts := [sa], writesPerformed := [request],
      passedText := none,
      result := some (.error
        (.Network "Failed to send a request to TCP stream".data)) }
  | .ok _ => getReadPhase w sa request stream

/-- `HttpClient::get` (lines 19–81 of `http.rs`): resolve, reject an empty
address list, connect to the first address only, then the send, receive and
decode phases above. -/
def HttpClient.get (w : World) (host : List Char) (port : Nat)
    (path : List Char) : GetTrace :=
  match w.lookupResult with
  | .error e =>
    { connectAttempts := [], writesPerformed := [], passedText := none,
      result := some (.error (.Network ("Failed to find IP addresses: ".data ++ e))) }
  | .ok ips =>
    match ips with
    | [] =>
      { connectAttempts := [], writesPerformed := [], passedText := none,
        result := some (.error (.Network "Failed to find IP adresses".data)) }
    | ip :: _ =>
      match w.connectResult with
      | .error _ =>
        { connectAttempts := [(ip, port)], writesPerformed := [],
          passedText := none,
          result := some (.error (.Network "Failed to connect to TCP stream".data)) }
      | .ok stream => getWritePhase w (ip, port) host path stream

theorem getDecodePhase_writes (w : World) (sa : Ip × Nat)
    (request : List Char) (received : List Byte) :
    (getDecodePhase w sa request received).writesPerformed = [request] := by
  unfold getDecodePhase
  cases hd : utf8Decode received with
  | error e => rfl
  | ok text => rfl

theorem getReadPhase_writes (w : World) (sa : Ip × Nat)
    (request : List Char) (stream : TcpStream) :
    (getReadPhase w sa request stream).writesPerformed = [request] := by
  unfold getReadPhase
  cases hrl : readLoop stream.reads [] with
  | none => rfl
  | some r =>
    cases r with
    | error e => rfl
    | ok received => exact getDecodePhase_writes w sa request received

/-- The read loop, fed non-empty chunks followed by a zero-byte read,
terminates normally with the accumulated bytes (whatever read outcomes would
follow the close are never requested). -/
theorem readLoop_close (pre : List (List Byte))
    (tail : List (Except Unit (List Byte))) (hne : ∀ c ∈ pre, c ≠ []) :
    ∀ acc, readLoop (pre.map Except.ok ++ (Except.ok [] :: tail)) acc =
      some (.ok (acc ++ pre.flatten)) := by
  induction pre with
  | nil => intro acc; simp [readLoop]
  | cons c cs ih =>
    intro acc
    have hc : c ≠ [] := hne c (List.mem_cons_self c cs)
    have hlen : (c.length == 0) = false := by
      cases c with
      | nil => exact absurd rfl hc
      | cons x xs => rfl
    simp only [List.map_cons, List.cons_append, readLoop, hlen, Bool.false_eq_true,
      if_false, List.append_eq]
    rw [ih (fun d hd => hne d (List.mem_cons_of_mem c hd)) (acc ++ c)]
    simp [List.append_assoc]

/-- The read loop, fed non-empty chunks followed by a read error, fails. -/
theorem readLoop_err (pre : List (List Byte))
    (tail : List (Except Unit (List Byte))) (hne : ∀ c ∈ pre, c ≠ []) :
    ∀ acc, readLoop (pre.map Except.ok ++ (Except.error () :: tail)) acc =
      some (.error ()) := by
  induction pre with
  | nil => intro acc; simp [readLoop]
  | cons c cs ih =>
    intro acc
    have hc : c ≠ [] := hne c (List.mem_cons_self c cs)
    have hlen : (c.length == 0) = false := by
      cases c with
      | nil => exact absurd rfl hc
      | cons x xs => rfl
    simp only [List.map_cons, List.cons_append, readLoop, hlen, Bool.false_eq_true,
      if_false, List.append_eq]
    exact ih (fun d hd => hne d (List.mem_cons_of_mem c hd)) (acc ++ c)

/-- Claim C7: when the resolver returns a non-empty address list, `get`
attempts a TCP connection only to the first address of the list, and when
that connect fails it returns the connect-phase network error without
attempting any other address. -/
theorem get_first_address_only (w : World) (host path : List Char)
    (port : Nat) (ip : Ip) (rest : List Ip)
    (hlk : w.lookupResult = .ok (ip :: rest))
    (hc : w.connectResult = .error ()) :
    (HttpClient.get w host port path).connectAttempts = [(ip, port)] ∧
    (HttpClient.get w host port path).result =
      some (.error (.Network "Failed to connect to TCP stream".data)) := by
  unfold HttpClient.get
  rw [hlk, hc]
  exact ⟨rfl, rfl⟩

/-- A world whose resolver yields two addresses and whose connect fails. -/
def wConnFail : World :=
  { lookupResult := .ok [7, 9], connectResult := .error (),
    httpResponseNew := fun t => .ok { rawText := t } }

/-- Witness for C7: with addresses `[7, 9]` and a failing connect, only
`(7, 80)` is attempted and the connect-phase error is returned. -/
theorem get_first_address_only_witness :
    (HttpClient.get wConnFail "example.com".data 80 []).connectAttempts =
      [(7, 80)] ∧
    (HttpClient.get wConnFail "example.com".data 80 []).result =
      some (.error (.Network "Failed to connect to TCP stream".data)) :=
  get_first_address_only wConnFail "example.com".data [] 80 7 [9] rfl rfl

/-- Claim C8: whenever `get` reaches the sending phase (resolution produced
an address and connect succeeded), the bytes written to the connection are
exactly the single request string `GET /{path} HTTP/1.1`, `Host: {host}`,
`Accept: text/html`, `Connection: close` with CRLF separators and a blank
line, path and host substituted verbatim — no body, no other headers, no
percent-encoding — and a write error yields the write-phase network
error. -/
theorem get_request_bytes (w : World) (host path : List Char) (port : Nat)
    (ip : Ip) (rest : List Ip) (stream : TcpStream)
    (hlk : w.lookupResult = .ok (ip :: rest))
    (hc : w.connectResult = .ok stream) :
    (HttpClient.get w host port path).writesPerformed =
      [requestString path host] ∧
    requestString path host =
      "GET /".data ++ path ++ " HTTP/1.1\r\nHost: ".data ++ host ++
        "\r\nAccept: text/html\r\nConnection: close\r\n\r\n".data ∧
    (stream.writeResult = .error () →
      (HttpClient.get w host port path).result =
        some (.error (.Network "Failed to send a request to TCP stream".data))) := by
  unfold HttpClient.get
  rw [hlk, hc]
  refine ⟨?_, rfl, ?_⟩
  · show (getWritePhase w (ip, port) host path stream).writesPerformed =
      [requestString path host]
    unfold getWritePhase
    cases hw : stream.writeResult with
    | error e => rfl
    | ok n =>
      exact getReadPhase_writes w (ip, port) (requestString path host) stream
  · intro hw
    show (getWritePhase w (ip, port) host path stream).result =
      some (.error (.Network "Failed to send a request to TCP stream".data))
    unfold getWritePhase
    rw [hw]

/-- A stream whose write fails. -/
def streamWriteFail : TcpStream := { writeResult := .error (), reads := [] }

/-- A world that resolves, connects, and then fails the write. -/
def wWriteFail : World :=
  { lookupResult := .ok [7], connectResult := .ok streamWriteFail,
    httpResponseNew := fun t => .ok { rawText := t } }

/-- Witness for C8: on a connected stream the exact request string for path
`index.html` and host `example.com` is written, and the failing write
produces the write-phase error. -/
theorem get_request_bytes_witness :
    (HttpClient.get wWriteFail "example.com".data 80 "index.html".data).writesPerformed =
      [requestString "index.html".data "example.com".data] ∧
    requestString "index.html".data "example.com".data =
      "GET /".data ++ "index.html".data ++ " HTTP/1.1\r\nHost: ".data ++
        "example.com".data ++
        "\r\nAccept: text/html\r\nConnection: close\r\n\r\n".data ∧
    (HttpClient.get wWriteFail "example.com".data 80 "index.html".data).result =
      some (.error (.Network "Failed to send a request to TCP stream".data)) :=
  ⟨(get_request_bytes wWriteFail "example.com".data "index.html".data 80 7 []
      streamWriteFail rfl rfl).1,
   (get_request_bytes wWriteFail "example.com".data "index.html".data 80 7 []
      streamWriteFail rfl rfl).2.1,
   (get_request_bytes wWriteFail "example.com".data "index.html".data 80 7 []
      streamWriteFail rfl rfl).2.2 rfl⟩

/-- Claim C9: for a transport whose reads produce finitely many non-empty
chunks and then a zero-byte read (or an error), the read loop terminates:
it returns the chunks concatenated in order when the terminator is the
zero-byte read, fails at the first read error, the error surfaces from
`get` as the read-phase network error, and a stream that closes immediately
makes `get` pass the empty decoded string to the response collaborator. -/
theorem read_loop_terminates
    (pre : List (List Byte)) (tail : List (Except Unit (List Byte)))
    (w w2 : World) (host path : List Char) (port : Nat)
    (ip : Ip) (rest : List Ip) (stream stream2 : TcpStream) (n n2 : Nat)
    (hne : ∀ c ∈ pre, c ≠ [])
    (hlk : w.lookupResult = .ok (ip :: rest))
    (hc : w.connectResult = .ok stream)
    (hw : stream.writeResult = .ok n)
    (hr : stream.reads = [.ok []])
    (hlk2 : w2.lookupResult = .ok (ip :: rest))
    (hc2 : w2.connectResult = .ok stream2)
    (hw2 : stream2.writeResult = .ok n2)
    (hr2 : stream2.reads = pre.map Except.ok ++ (Except.error () :: tail)) :
    readLoop (pre.map Except.ok ++ (Except.ok [] :: tail)) [] =
      some (.ok pre.flatten) ∧
    readLoop (pre.map Except.ok ++ (Except.error () :: tail)) [] =
      some (.error ()) ∧
    (HttpClient.get w host port path).passedText = some [] ∧
    (HttpClient.get w host port path).result = some (w.httpResponseNew []) ∧
    (HttpClient.get w2 host port path).result =
      some (.error (.Network "Failed to receive a request from TCP stream".data)) := by
  refine ⟨?_, ?_, ?_, ?_, ?_⟩
  · simpa using readLoop_close pre tail hne []
  · exact readLoop_err pre tail hne []
  · unfold HttpClient.get
    rw [hlk, hc]
    show (getWritePhase w (ip, port) host path stream).passedText = some []
    unfold getWritePhase
    rw [hw]
    show (getReadPhase w (ip, port) (requestString path host) stream).passedText
      = some []
    unfold getReadPhase
    rw [hr]
    rfl
  · unfold HttpClient.get
    rw [hlk, hc]
    show (getWritePhase w (ip, port) host path stream).result =
      some (w.httpResponseNew [])
    unfold getWritePhase
    rw [hw]
    show (getReadPhase w (ip, port) (requestString path host) stream).result =
      some (w.httpResponseNew [])
    unfold getReadPhase
    rw [hr]
    rfl
  · unfold HttpClient.get
    rw [hlk2, hc2]
    show (getWritePhase w2 (ip, port) host path stream2).result =
      some (.error (.Network "Failed to receive a request from TCP stream".data))
    unfold getWritePhase
    rw [hw2]
    show (getReadPhase w2 (ip, port) (requestString path host) stream2).result =
      some (.error (.Network "Failed to receive a request from TCP stream".data))
    unfold getReadPhase
    rw [hr2, readLoop_err pre tail hne []]

/-- A stream that closes immediately: the first read returns zero bytes. -/
def streamEof : TcpStream := { writeResult := .ok 0, reads := [.ok []] }

/-- A world whose stream closes immediately. -/
def wEof : World :=
  { lookupResult := .ok [3], connectResult := .ok streamEof,
    httpResponseNew := fun t => .ok { rawText := t } }

/-- A stream producing two chunks and then a read error. -/
def streamReadErr : TcpStream :=
  { writeResult := .ok 0,
    reads := [Except.ok [72, 73], Except.ok [10], Except.error ()] }

/-- A world whose stream errors on the third read. -/
def wReadErr : World :=
  { lookupResult := .ok [3], connectResult := .ok streamReadErr,
    httpResponseNew := fun t => .ok { rawText := t } }

/-- Witness for C9: two chunks then close accumulate in order, two chunks
then an error fail, the immediately closed stream passes the empty string
to the response collaborator, and the erroring stream surfaces the
read-phase error. -/
theorem read_loop_terminates_witness :
    readLoop (List.map Except.ok [[72, 73], [10]] ++ (Except.ok [] :: [])) [] =
      some (.ok ([[72, 73], [10]] : List (List Byte)).flatten) ∧
    readLoop (List.map Except.ok [[72, 73], [10]] ++ (Except.error () :: [])) [] =
      some (.error ()) ∧
    (HttpClient.get wEof "example.com".data 80 "index.html".data).passedText =
      some [] ∧
    (HttpClient.get wEof "example.com".data 80 "index.html".data).result =
      some (wEof.httpResponseNew []) ∧
    (HttpClient.get wReadErr "example.com".data 80 "index.html".data).result =
      some (.error (.Network "Failed to receive a request from TCP stream".data)) :=
  read_loop_terminates [[72, 73], [10]] [] wEof wReadErr "example.com".data
    "index.html".data 80 3 [] streamEof streamReadErr 0 0 (by decide)
    rfl rfl rfl rfl rfl rfl rfl rfl
